import Mathlib

/-!
Shallow embedding of the per-round BFT agreement instance of the dexon
repository (vendor/github.com/dexon-foundation/dexon-consensus-core/core/agreement.go),
together with theorems settling the frozen claims about it.

Conventions of the embedding:
* machine integers (uint64 periods, heights, counts) are `Nat`; Go integer
  division `len(notarySet)/3*2+1` is `Nat` floor division;
* Go maps become association lists (`amFind` / `amInsert`), deterministic
  stand-ins for Go's unordered maps;
* the three mutexes are dropped: each exported operation is one atomic step;
* external collaborators (signature verification, leader selector) become an
  `Env` of boolean oracles; Receiver callbacks (`ConfirmBlock`, `PullBlocks`)
  become `Event` values returned by each step;
* the capacity-1 `fastForward` channel becomes a FIFO list: a send appends,
  `done()`'s non-blocking receive pops the head;
* wall-clock times (`receivedTime`, `time.Now()`) are `Nat` seconds supplied
  by the caller; `t.After(now - 10s)` for the pending-buffer sweep becomes
  `now < t + 10`.
-/

namespace Dexon

/-- Modelled from the spec: block hashes (the `common.Hash` type is not under
src/); an opaque value with equality, here `Nat`. -/
abbrev Hash := Nat

/-- Modelled from the spec: the `nullBlockHash` sentinel ("no block chosen
yet"), distinct from `skipBlockHash`. -/
def nullBlockHash : Hash := 0

/-- Modelled from the spec: the `skipBlockHash` sentinel ("skip this
period"), distinct from `nullBlockHash`. -/
def skipBlockHash : Hash := 1

/-- Modelled from the spec: opaque validator identity with value equality. -/
abbrev NodeID := Nat

/-- Modelled from the spec: `types.Position{chainID: uint32, height: uint64}`
(the types package is not under src/). -/
structure Position where
  chainID : Nat
  height : Nat
deriving DecidableEq

/-- Modelled from the spec: `Position.Newer` compares positions; on one chain
a position is newer when its height is strictly greater. -/
def Position.Newer (p other : Position) : Bool :=
  other.height < p.height

/-- Sentinel chainID used by `stop` (`math.MaxUint32`). -/
def stopChainID : Nat := 4294967295

/-- Source `isStop`: a position denotes the stopped instance when its chainID
is the sentinel. -/
def isStop (aID : Position) : Bool :=
  aID.chainID = stopChainID

/-- Modelled from the spec: vote types `Init`, `PreCommit`, `Commit`
(`types.VoteType` is not under src/; further vote types are outside the
spec's scope). -/
inductive VoteType where
  | ini
  | preCom
  | com
deriving DecidableEq

/-- Modelled from the spec: `types.Vote` with proposer, position, period,
type, block hash and signature. -/
structure Vote where
  proposerID : NodeID
  position : Position
  period : Nat
  voteType : VoteType
  blockHash : Hash
  signature : Nat
deriving DecidableEq

/-- Modelled from the spec: `types.Block` restricted to the fields the
agreement instance reads: proposer, position, hash. -/
structure Block where
  proposerID : NodeID
  position : Position
  hash : Hash
deriving DecidableEq

/-- Association list standing in for a Go map. -/
abbrev AssocMap (α β : Type) := List (α × β)

/-- Lookup in an association list (Go map read). -/
def amFind {α β : Type} [DecidableEq α] : AssocMap α β → α → Option β
  | [], _ => none
  | (k, v) :: rest, k' => if k = k' then some v else amFind rest k'

/-- Insert-or-replace in an association list (Go map assignment). -/
def amInsert {α β : Type} [DecidableEq α] : AssocMap α β → α → β → AssocMap α β
  | [], k, v => [(k, v)]
  | (k', v') :: rest, k, v =>
      if k' = k then (k, v) :: rest else (k', v') :: amInsert rest k v

/-- Keys of an association list. -/
def amKeys {α β : Type} (m : AssocMap α β) : List α := m.map (·.1)

/-- Per-period vote storage: one proposer-keyed map per vote type
(source `newVoteListMap`). -/
structure VoteBucket where
  ini : AssocMap NodeID Vote
  pre : AssocMap NodeID Vote
  com : AssocMap NodeID Vote
deriving DecidableEq

/-- Read the sub-map of a bucket for one vote type. -/
def VoteBucket.get (b : VoteBucket) : VoteType → AssocMap NodeID Vote
  | .ini => b.ini
  | .preCom => b.pre
  | .com => b.com

/-- Replace the sub-map of a bucket for one vote type. -/
def VoteBucket.set (b : VoteBucket) : VoteType → AssocMap NodeID Vote → VoteBucket
  | .ini, l => { b with ini := l }
  | .preCom, l => { b with pre := l }
  | .com, l => { b with com := l }

/-- Empty bucket, as created by `newVoteListMap`. -/
def emptyBucket : VoteBucket := ⟨[], [], []⟩

/-- Combined state of one agreement instance: the `agreement` struct merged
with its `agreementData` (locks dropped, external state machine omitted). -/
structure State where
  lockValue : Hash
  lockRound : Nat
  period : Nat
  requiredVote : Nat
  votes : AssocMap Nat VoteBucket
  blocks : AssocMap NodeID Block
  aID : Position
  notarySet : List NodeID
  hasOutput : Bool
  pendingBlock : List (Block × Nat)
  pendingVote : List (Vote × Nat)
  candidateBlock : AssocMap Hash Block
  fastForward : List Nat
deriving DecidableEq

/-- Modelled from the spec: external collaborators as oracles — signature
verification (`verifyVoteSignature`) and the leader selector's block
acceptance (`leaderSelector.processBlock`), neither of which is under src/. -/
structure Env where
  sigOk : Vote → Bool
  leaderOk : Block → Bool

/-- Errors returned by the agreement module. -/
inductive AErr where
  | notInNotarySet
  | incorrectVoteSignature
  | forkVote (nID : NodeID) (old new : Vote)
  | fork (nID : NodeID) (old new : Hash)
  | leaderReject
deriving DecidableEq

/-- Receiver callbacks observed during a step. -/
inductive Event where
  | confirmBlock (h : Hash) (votes : AssocMap NodeID Vote)
  | pullBlocks (hs : List Hash)
deriving DecidableEq

/-- Result of one call into the instance. -/
structure StepResult where
  st : State
  err : Option AErr
  evs : List Event
deriving DecidableEq

/-- Source `countVoteNoLock`: return some hash whose vote count in the
`(period, voteType)` bucket reaches `requiredVote`, if any (Go iterates an
unordered map; the embedding deterministically takes the first qualifying
entry in insertion order). -/
def countVoteNoLock (a : State) (period : Nat) (t : VoteType) : Option Hash :=
  match amFind a.votes period with
  | none => none
  | some bkt =>
      let l := bkt.get t
      (l.find? (fun e =>
        a.requiredVote ≤ (l.filter (fun e' => e'.2.blockHash == e.2.blockHash)).length)).map
        (fun e => e.2.blockHash)

/-- Source `checkForkVote`: a recorded vote with the same
(period, type, proposer) key but a different block hash is a fork vote. -/
def checkForkVote (a : State) (v : Vote) : Option AErr :=
  match amFind a.votes v.period with
  | none => none
  | some bkt =>
      match amFind (bkt.get v.voteType) v.proposerID with
      | none => none
      | some old =>
          if v.blockHash ≠ old.blockHash then some (.forkVote v.proposerID old v) else none

/-- Record a vote into the tally: create the period's bucket when missing
(`newVoteListMap`), then assign at `(type, proposer)`. -/
def recordVote (v : Vote) (a : State) : State :=
  let bkt := (amFind a.votes v.period).getD emptyBucket
  let bkt' := bkt.set v.voteType (amInsert (bkt.get v.voteType) v.proposerID v)
  { a with votes := amInsert a.votes v.period bkt' }

/-- Commit-vote sub-map of a period's bucket (`a.data.votes[period][VoteCom]`). -/
def comVotes (a : State) (period : Nat) : AssocMap NodeID Vote :=
  ((amFind a.votes period).getD emptyBucket).com

/-- Hashes handed to `PullBlocks` in condition 3: for each Init, PreCommit
and Commit vote of the period (in that order), its block hash when it is
neither sentinel and is absent from the candidate-block pool — one entry per
vote, exactly as the source's `addPullBlocks` appends. -/
def pullHashes (a : State) (period : Nat) : List Hash :=
  let bkt := (amFind a.votes period).getD emptyBucket
  let keep (l : AssocMap NodeID Vote) : List Hash :=
    (l.filter (fun e =>
      !(e.2.blockHash == nullBlockHash) && !(e.2.blockHash == skipBlockHash) &&
        (amFind a.candidateBlock e.2.blockHash).isNone)).map (fun e => e.2.blockHash)
  keep bkt.ini ++ keep bkt.pre ++ keep bkt.com

/-- Condition 3 of `processVote` (skip-forcing): a Commit vote with
`period ≥ currentPeriod` whose period's Commit bucket reached quorum size
triggers `PullBlocks` and posts `vote.period + 1`. -/
def cond3 (v : Vote) (a : State) : StepResult :=
  if v.voteType = .com ∧ a.period ≤ v.period ∧
      a.requiredVote ≤ (comVotes a v.period).length then
    ⟨{ a with fastForward := a.fastForward ++ [v.period + 1] }, none,
      [.pullBlocks (pullHashes a v.period)]⟩
  else ⟨a, none, []⟩

/-- Fast-forward evaluation of `processVote` (conditions 1 and 2, falling
through to condition 3), applied to the post-recording state. -/
def ffCheck (v : Vote) (a : State) : StepResult :=
  if v.voteType = .preCom then
    match countVoteNoLock a v.period .preCom with
    | some h =>
        if h ≠ skipBlockHash then
          if v.period ≤ a.period ∧ a.lockRound < v.period ∧ v.blockHash ≠ a.lockValue then
            ⟨{ a with
                lockValue := h
                lockRound := v.period
                fastForward := a.fastForward ++ [a.period + 1] }, none, []⟩
          else if a.period < v.period then
            ⟨{ a with
                lockValue := h
                lockRound := v.period
                fastForward := a.fastForward ++ [v.period] }, none, []⟩
          else cond3 v a
        else cond3 v a
    | none => cond3 v a
  else cond3 v a

/-- Core of `processVote` after the sanity, position and fork checks: record
the vote, maybe finalize (ConfirmBlock), otherwise evaluate fast-forward. -/
def processVoteCore (v : Vote) (a0 : State) : StepResult :=
  let a := recordVote v a0
  if a.hasOutput = false ∧ v.voteType = .com then
    match countVoteNoLock a v.period .com with
    | some h =>
        if h ≠ skipBlockHash then
          ⟨{ a with hasOutput := true }, none, [.confirmBlock h (comVotes a v.period)]⟩
        else ffCheck v a
    | none => ffCheck v a
  else if a.hasOutput then ⟨a, none, []⟩
  else ffCheck v a

/-- Source `processVote`: sanity check (notary membership, signature), then
position check (stale drop or pending buffer), then fork check, then the
recording / finalization / fast-forward core. -/
def processVote (env : Env) (now : Nat) (v : Vote) (a : State) : StepResult :=
  if v.proposerID ∈ a.notarySet then
    if env.sigOk v then
      if v.position = a.aID then
        match checkForkVote a v with
        | some e => ⟨a, some e, []⟩
        | none => processVoteCore v a
      else if isStop a.aID = false ∧ a.aID.Newer v.position then ⟨a, none, []⟩
      else ⟨{ a with pendingVote := a.pendingVote ++ [(v, now)] }, none, []⟩
    else ⟨a, some .incorrectVoteSignature, []⟩
  else ⟨a, some .notInNotarySet, []⟩

/-- Source `processBlock`: position check (stale drop or pending buffer),
fork check against the recorded block of the proposer, leader-selector
acceptance, then record into the block map and candidate-block pool. -/
def processBlock (env : Env) (now : Nat) (b : Block) (a : State) : StepResult :=
  if b.position = a.aID then
    match amFind a.blocks b.proposerID with
    | some old =>
        if old.hash ≠ b.hash then ⟨a, some (.fork b.proposerID old.hash b.hash), []⟩
        else ⟨a, none, []⟩
    | none =>
        if env.leaderOk b then
          ⟨{ a with
              blocks := amInsert a.blocks b.proposerID b
              candidateBlock := amInsert a.candidateBlock b.hash b }, none, []⟩
        else ⟨a, some .leaderReject, []⟩
  else if isStop a.aID = false ∧ a.aID.Newer b.position then ⟨a, none, []⟩
  else ⟨{ a with pendingBlock := a.pendingBlock ++ [(b, now)] }, none, []⟩

/-- Source `agreementData.setPeriod`: create any missing vote buckets between
the old period (exclusive) and the new one (inclusive). -/
def extendVotes (m : AssocMap Nat VoteBucket) (old new : Nat) : AssocMap Nat VoteBucket :=
  (List.range' (old + 1) (new - old)).foldl
    (fun m' i => if (amFind m' i).isSome then m' else amInsert m' i emptyBucket) m

/-- Source `done()`: if finalized, signal completion; otherwise drain the
fast-forward slot without blocking, adopting a pending period when it is
ahead of the current one. The `Bool` is whether the returned channel holds a
completion signal. -/
def doneStep (a : State) : State × Bool :=
  if a.hasOutput then (a, true)
  else
    match a.fastForward with
    | [] => (a, false)
    | p :: rest =>
        if p ≤ a.period then ({ a with fastForward := rest }, false)
        else ({ a with
            fastForward := rest
            votes := extendVotes a.votes a.period p
            period := p }, true)

/-- Replay loop over swept pending blocks (the first replay loop at the end
of `restart`), accumulating events and ignoring returned errors as the
source does. -/
def replayBlocks (env : Env) (now : Nat) (l : List Block) (acc : State × List Event) :
    State × List Event :=
  l.foldl (fun acc b =>
    let r := processBlock env now b acc.1; (r.st, acc.2 ++ r.evs)) acc

/-- Replay loop over swept pending votes (the second replay loop at the end
of `restart`). -/
def replayVotes (env : Env) (now : Nat) (l : List Vote) (acc : State × List Event) :
    State × List Event :=
  l.foldl (fun acc v =>
    let r := processVote env now v acc.1; (r.st, acc.2 ++ r.evs)) acc

/-- Pending entries whose position matches the new round exactly (queued for
replay by the `restart` sweep). -/
def sweepReplay {α : Type} (aID : Position) (pos : α → Position) (l : List (α × Nat)) :
    List α :=
  l.filterMap (fun e =>
    if aID.Newer (pos e.1) then none
    else if pos e.1 = aID then some e.1 else none)

/-- Pending entries retained by the `restart` sweep: not older than the new
round, not an exact match, and received within the last 10 seconds. -/
def sweepKeep {α : Type} (aID : Position) (pos : α → Position) (now : Nat)
    (l : List (α × Nat)) : List (α × Nat) :=
  l.filter (fun e =>
    !(aID.Newer (pos e.1)) && !(pos e.1 == aID) && decide (now < e.2 + 10))

/-- Critical section of `restart`: replace the round state (period 1, fresh
tally, quorum recomputed from the notary set, null lock value, lock round 1,
cleared blocks/candidates, fresh mailbox); the pending buffers are kept as
they are. -/
def restartData (ns : List NodeID) (aID : Position) (a : State) : State :=
  { a with
    votes := [(1, emptyBucket)]
    period := 1
    blocks := []
    requiredVote := ns.length / 3 * 2 + 1
    lockValue := nullBlockHash
    lockRound := 1
    fastForward := []
    hasOutput := false
    notarySet := ns
    candidateBlock := []
    aID := aID }

/-- Round state after the `restart` critical section and both pending-buffer
sweeps, before the replay loops run. -/
def restartSwept (now : Nat) (ns : List NodeID) (aID : Position) (a : State) : State :=
  { restartData ns aID a with
    pendingBlock := sweepKeep aID Block.position now a.pendingBlock
    pendingVote := sweepKeep aID Vote.position now a.pendingVote }

/-- Source `restart`: replace the round state, then — unless stopping —
sweep the pending buffers against the new position and replay matching
entries through `processBlock`/`processVote`. -/
def restart (env : Env) (now : Nat) (ns : List NodeID) (aID : Position) (a : State) :
    State × List Event :=
  if isStop aID then (restartData ns aID a, [])
  else
    replayVotes env now (sweepReplay aID Vote.position a.pendingVote)
      (replayBlocks env now (sweepReplay aID Block.position a.pendingBlock)
        (restartSwept now ns aID a, []))

/-- Source `stop`: restart with an empty notary set and the sentinel
position. -/
def stop (env : Env) (now : Nat) (a : State) : State × List Event :=
  restart env now [] ⟨stopChainID, 0⟩ a

/-- Zero-valued `agreement` struct as built by `newAgreement` before its
`stop()` call. -/
def zeroState : State :=
  { lockValue := 0, lockRound := 0, period := 0, requiredVote := 0, votes := [],
    blocks := [], aID := ⟨0, 0⟩, notarySet := [], hasOutput := false,
    pendingBlock := [], pendingVote := [], candidateBlock := [], fastForward := [] }

/-- Source `newAgreement`: build the zero-valued instance and `stop()` it. -/
def newAgreement (env : Env) : State := (stop env 0 zeroState).1

/-- One driver-visible action within a round (between two restarts). -/
inductive Action where
  | vote (now : Nat) (v : Vote)
  | block (now : Nat) (b : Block)
  | tick
deriving DecidableEq

/-- Apply one action to the instance, keeping the emitted events. -/
def stepAct (env : Env) (a : State) : Action → State × List Event
  | .vote now v => let r := processVote env now v a; (r.st, r.evs)
  | .block now b => let r := processBlock env now b a; (r.st, r.evs)
  | .tick => ((doneStep a).1, [])

/-- Run a sequence of actions, concatenating emitted events. -/
def run (env : Env) (a : State) : List Action → State × List Event
  | [] => (a, [])
  | act :: rest =>
      let s := stepAct env a act
      let r := run env s.1 rest
      (r.1, s.2 ++ r.2)

/-- Whether an event is a `ConfirmBlock` callback. -/
def isConfirm : Event → Bool
  | .confirmBlock _ _ => true
  | .pullBlocks _ => false

/-- Number of `ConfirmBlock` callbacks in an event list. -/
def confirms (evs : List Event) : Nat := (evs.filter isConfirm).length

/-- Finalization potential: 1 while `ConfirmBlock` may still fire, 0 after. -/
def outPot (a : State) : Nat := if a.hasOutput then 0 else 1

/-- Amended round-state invariant: either `lockRound ≤ period` already, or
`lockRound` is a pending fast-forward target that `done()` will adopt. -/
def InvLock (a : State) : Prop :=
  a.lockRound ≤ a.period ∨ a.lockRound ∈ a.fastForward

/-- Sub-map of vote entries of one period and vote type, used to state the
quorum-count property. -/
def votesOf (a : State) (period : Nat) (t : VoteType) : AssocMap NodeID Vote :=
  ((amFind a.votes period).getD emptyBucket).get t

/-! ### Concrete fixtures used by witnesses and counterexamples -/

/-- Environment oracle accepting every signature and block. -/
def envW : Env := ⟨fun _ => true, fun _ => true⟩

/-- Concrete active position. -/
def posW : Position := ⟨0, 1⟩

/-- Build a vote at `posW`. -/
def mkVote (pid per : Nat) (t : VoteType) (h : Hash) : Vote := ⟨pid, posW, per, t, h, 0⟩

/-- Instance freshly restarted at `posW` with notary set {1,2,3,4}
(quorum 3). -/
def startW : State := (restart envW 0 [1, 2, 3, 4] posW (newAgreement envW)).1

/-- Three PreCommit votes of period 2 for hash 7: fast-forward condition 2
fires on the third. -/
def lockTrace : List Action :=
  [.vote 0 (mkVote 1 2 .preCom 7), .vote 0 (mkVote 2 2 .preCom 7),
   .vote 0 (mkVote 3 2 .preCom 7)]

/-- State right after `lockTrace`: lock round 2, period still 1. -/
def lockState : State := (run envW startW lockTrace).1

/-- Reachable trace driving the instance to period 4 with lock value 8 and
lock round 3 while period 4 holds a PreCommit quorum on hash 7. -/
def ffTrace : List Action :=
  [.vote 0 (mkVote 1 2 .preCom 7), .vote 0 (mkVote 2 2 .preCom 7),
   .vote 0 (mkVote 3 2 .preCom 7), .tick,
   .vote 0 (mkVote 1 2 .com 11), .vote 0 (mkVote 2 2 .com 12),
   .vote 0 (mkVote 3 2 .com 13), .tick,
   .vote 0 (mkVote 1 3 .com 11), .vote 0 (mkVote 2 3 .com 12),
   .vote 0 (mkVote 3 3 .com 13), .tick,
   .vote 0 (mkVote 1 4 .preCom 7), .vote 0 (mkVote 2 4 .preCom 7),
   .vote 0 (mkVote 3 4 .preCom 7),
   .vote 0 (mkVote 1 3 .preCom 8), .vote 0 (mkVote 2 3 .preCom 8),
   .vote 0 (mkVote 3 3 .preCom 8)]

/-- State after `ffTrace`. -/
def ffState : State := (run envW startW ffTrace).1

/-- PreCommit vote of period 4 whose own hash equals the lock value even
though the period-4 winning hash differs from it. -/
def ffVote : Vote := mkVote 4 4 .preCom 8

/-- Quorum of Commit votes for hash 7: finalization fires on the third. -/
def finTrace : List Action :=
  [.vote 0 (mkVote 1 1 .com 7), .vote 0 (mkVote 2 1 .com 7), .vote 0 (mkVote 3 1 .com 7)]

/-- Finalized state (ConfirmBlock already fired). -/
def finState : State := (run envW startW finTrace).1

/-- Commit vote conflicting with proposer 1's recorded Commit vote. -/
def finForkVote : Vote := mkVote 1 1 .com 8

/-- Two Commit votes for hash 5: one more Commit vote reaches quorum size
without any winning hash. -/
def pullTrace : List Action :=
  [.vote 0 (mkVote 1 1 .com 5), .vote 0 (mkVote 2 1 .com 5)]

/-- State after `pullTrace`. -/
def pullState : State := (run envW startW pullTrace).1

/-- Commit vote for hash 6 completing quorum size 3 with no winner. -/
def pullVote : Vote := mkVote 3 1 .com 6

/-- Commit quorum-exhausted fast-forward to period 3, then two PreCommit
votes of period 2 for hash 8. -/
def cond1Trace : List Action :=
  [.vote 0 (mkVote 1 2 .com 11), .vote 0 (mkVote 2 2 .com 12),
   .vote 0 (mkVote 3 2 .com 13), .tick,
   .vote 0 (mkVote 1 2 .preCom 8), .vote 0 (mkVote 2 2 .preCom 8)]

/-- State after `cond1Trace`: period 3, lock round 1, null lock value. -/
def cond1State : State := (run envW startW cond1Trace).1

/-- Third PreCommit vote of period 2 for hash 8: condition 1 fires. -/
def cond1Vote : Vote := mkVote 3 2 .preCom 8

/-- Two Commit votes for hash 7 (one short of quorum). -/
def almostTrace : List Action :=
  [.vote 0 (mkVote 1 1 .com 7), .vote 0 (mkVote 2 1 .com 7)]

/-- State one Commit vote short of finalizing on hash 7. -/
def almostState : State := (run envW startW almostTrace).1

/-- Commit vote finalizing hash 7. -/
def almostVote : Vote := mkVote 3 1 .com 7

/-- Two PreCommit votes of period 3 for hash 7 (current period 1). -/
def c5Trace : List Action :=
  [.vote 0 (mkVote 1 3 .preCom 7), .vote 0 (mkVote 2 3 .preCom 7)]

/-- State for the fast-forward condition 2 witness. -/
def c5State : State := (run envW startW c5Trace).1

/-- Third PreCommit vote of period 3 for hash 7: condition 2 fires. -/
def c5Vote : Vote := mkVote 3 3 .preCom 7

/-- Block from proposer 1 with hash 5 at `posW`. -/
def blkA : Block := ⟨1, posW, 5⟩

/-- Conflicting block from proposer 1 with hash 6 at `posW`. -/
def blkB : Block := ⟨1, posW, 6⟩

/-- State with `blkA` recorded. -/
def blkState : State := (processBlock envW 0 blkA startW).st

/-- Vote at a future position (height 2, current height 1). -/
def futVote : Vote := ⟨2, ⟨0, 2⟩, 1, .com, 7, 0⟩

/-- State with `futVote` sitting in the pending-vote buffer
(received at time 5). -/
def bufState : State := (processVote envW 5 futVote startW).st

/-- Vote at a stale position (height 0, current height 1). -/
def oldVote : Vote := ⟨1, ⟨0, 0⟩, 1, .com, 7, 0⟩

/-! ### Basic lemmas about the association-list map operations -/

theorem amFind_amInsert_self {α β : Type} [DecidableEq α] (m : AssocMap α β) (k : α) (v : β) :
    amFind (amInsert m k v) k = some v := by
  induction m with
  | nil => simp [amInsert, amFind]
  | cons e rest ih =>
      by_cases h : e.1 = k
      · simp [amInsert, amFind, h]
      · simp [amInsert, amFind, h, ih]

theorem amInsert_self {α β : Type} [DecidableEq α] (m : AssocMap α β) (k : α) (v : β)
    (h : amFind m k = some v) : amInsert m k v = m := by
  induction m with
  | nil => simp [amFind] at h
  | cons e rest ih =>
      obtain ⟨k', v'⟩ := e
      by_cases he : k' = k
      · subst he
        simp [amFind] at h
        simp [amInsert, h]
      · simp [amFind, he] at h
        simp [amInsert, he, ih h]

theorem VoteBucket.set_get (b : VoteBucket) (t : VoteType) : b.set t (b.get t) = b := by
  cases t <;> rfl

theorem VoteBucket.get_set (b : VoteBucket) (t : VoteType) (l : AssocMap NodeID Vote) :
    (b.set t l).get t = l := by
  cases t <;> rfl

/-! ### Field-preservation lemmas for the step functions -/

theorem recordVote_fields (v : Vote) (a : State) :
    (recordVote v a).lockValue = a.lockValue ∧ (recordVote v a).lockRound = a.lockRound ∧
    (recordVote v a).period = a.period ∧ (recordVote v a).requiredVote = a.requiredVote ∧
    (recordVote v a).blocks = a.blocks ∧ (recordVote v a).aID = a.aID ∧
    (recordVote v a).notarySet = a.notarySet ∧ (recordVote v a).hasOutput = a.hasOutput ∧
    (recordVote v a).pendingBlock = a.pendingBlock ∧
    (recordVote v a).pendingVote = a.pendingVote ∧
    (recordVote v a).candidateBlock = a.candidateBlock ∧
    (recordVote v a).fastForward = a.fastForward :=
  ⟨rfl, rfl, rfl, rfl, rfl, rfl, rfl, rfl, rfl, rfl, rfl, rfl⟩

theorem pvc_pres (v : Vote) (a : State) :
    (processVoteCore v a).err = none ∧
    (processVoteCore v a).st.votes = (recordVote v a).votes ∧
    (processVoteCore v a).st.period = a.period ∧
    (processVoteCore v a).st.requiredVote = a.requiredVote ∧
    (processVoteCore v a).st.blocks = a.blocks ∧
    (processVoteCore v a).st.aID = a.aID ∧
    (processVoteCore v a).st.notarySet = a.notarySet ∧
    (processVoteCore v a).st.pendingBlock = a.pendingBlock ∧
    (processVoteCore v a).st.pendingVote = a.pendingVote ∧
    (processVoteCore v a).st.candidateBlock = a.candidateBlock := by
  simp only [processVoteCore, ffCheck, cond3]
  repeat' split
  all_goals exact ⟨rfl, rfl, rfl, rfl, rfl, rfl, rfl, rfl, rfl, rfl⟩

theorem pv_pres (env : Env) (now : Nat) (v : Vote) (a : State) :
    (processVote env now v a).st.period = a.period ∧
    (processVote env now v a).st.requiredVote = a.requiredVote ∧
    (processVote env now v a).st.blocks = a.blocks ∧
    (processVote env now v a).st.aID = a.aID ∧
    (processVote env now v a).st.notarySet = a.notarySet ∧
    (processVote env now v a).st.pendingBlock = a.pendingBlock ∧
    (processVote env now v a).st.candidateBlock = a.candidateBlock := by
  simp only [processVote]
  repeat' split
  all_goals first
    | exact ⟨rfl, rfl, rfl, rfl, rfl, rfl, rfl⟩
    | exact ⟨(pvc_pres v a).2.2.1, (pvc_pres v a).2.2.2.1, (pvc_pres v a).2.2.2.2.1,
        (pvc_pres v a).2.2.2.2.2.1, (pvc_pres v a).2.2.2.2.2.2.1,
        (pvc_pres v a).2.2.2.2.2.2.2.1, (pvc_pres v a).2.2.2.2.2.2.2.2.2⟩

theorem pb_pres (env : Env) (now : Nat) (b : Block) (a : State) :
    (processBlock env now b a).st.votes = a.votes ∧
    (processBlock env now b a).st.period = a.period ∧
    (processBlock env now b a).st.requiredVote = a.requiredVote ∧
    (processBlock env now b a).st.aID = a.aID ∧
    (processBlock env now b a).st.notarySet = a.notarySet ∧
    (processBlock env now b a).st.hasOutput = a.hasOutput ∧
    (processBlock env now b a).st.lockValue = a.lockValue ∧
    (processBlock env now b a).st.lockRound = a.lockRound ∧
    (processBlock env now b a).st.fastForward = a.fastForward ∧
    (processBlock env now b a).st.pendingVote = a.pendingVote ∧
    (processBlock env now b a).evs = [] := by
  simp only [processBlock]
  repeat' split
  all_goals exact ⟨rfl, rfl, rfl, rfl, rfl, rfl, rfl, rfl, rfl, rfl, rfl⟩

/-- When the vote targets the current position, `processVote` never touches
the pending-vote buffer. -/
theorem pv_pendingVote_of_pos (env : Env) (now : Nat) (v : Vote) (a : State)
    (hp : v.position = a.aID) :
    (processVote env now v a).st.pendingVote = a.pendingVote := by
  simp only [processVote, hp, if_pos rfl]
  repeat' split
  all_goals first
    | rfl
    | exact (pvc_pres v a).2.2.2.2.2.2.2.2.1
    | simp_all

/-! ### The lock-round invariant (claim C3) -/

theorem cond3_inv (v : Vote) (a : State) (h : InvLock a) : InvLock (cond3 v a).st := by
  unfold cond3
  split
  · rcases h with h | h
    · exact Or.inl h
    · exact Or.inr (List.mem_append_left _ h)
  · exact h

theorem ffCheck_inv (v : Vote) (a : State) (h : InvLock a) : InvLock (ffCheck v a).st := by
  unfold ffCheck
  split
  · split
    · split
      · split
        · next hc => exact Or.inl hc.1
        · split
          · exact Or.inr (List.mem_append_right _ (List.mem_singleton_self _))
          · exact cond3_inv v a h
      · exact cond3_inv v a h
    · exact cond3_inv v a h
  · exact cond3_inv v a h

theorem pvc_inv (v : Vote) (a : State) (h : InvLock a) : InvLock (processVoteCore v a).st := by
  simp only [processVoteCore]
  repeat' split
  all_goals first | exact h | exact ffCheck_inv v _ h

theorem pv_inv (env : Env) (now : Nat) (v : Vote) (a : State) (h : InvLock a) :
    InvLock (processVote env now v a).st := by
  simp only [processVote]
  repeat' split
  all_goals first | exact h | exact pvc_inv v _ h

theorem pb_inv (env : Env) (now : Nat) (b : Block) (a : State) (h : InvLock a) :
    InvLock (processBlock env now b a).st := by
  have hp := pb_pres env now b a
  unfold InvLock
  rw [hp.2.2.2.2.2.2.2.1, hp.2.2.2.2.2.2.2.2.1, hp.2.1]
  exact h

theorem doneStep_inv (a : State) (h : InvLock a) : InvLock (doneStep a).1 := by
  unfold doneStep
  split
  · exact h
  · split
    · exact h
    · next p rest heq =>
        split
        · next hle =>
            rcases h with h | h
            · exact Or.inl h
            · rw [heq] at h
              rcases List.mem_cons.mp h with h | h
              · exact Or.inl (h ▸ hle)
              · exact Or.inr h
        · next hgt =>
            rcases h with h | h
            · exact Or.inl (le_trans h (le_of_not_le hgt))
            · rw [heq] at h
              rcases List.mem_cons.mp h with h | h
              · exact Or.inl (le_of_eq h)
              · exact Or.inr h

theorem stepAct_inv (env : Env) (a : State) (act : Action) (h : InvLock a) :
    InvLock (stepAct env a act).1 := by
  cases act with
  | vote now v => exact pv_inv env now v a h
  | block now b => exact pb_inv env now b a h
  | tick => exact doneStep_inv a h

theorem run_inv (env : Env) (a : State) (acts : List Action) (h : InvLock a) :
    InvLock (run env a acts).1 := by
  induction acts generalizing a with
  | nil => exact h
  | cons act rest ih => exact ih _ (stepAct_inv env a act h)

theorem replayBlocks_inv (env : Env) (now : Nat) (l : List Block) (acc : State × List Event)
    (h : InvLock acc.1) : InvLock (replayBlocks env now l acc).1 := by
  induction l generalizing acc with
  | nil => exact h
  | cons b rest ih => exact ih _ (pb_inv env now b acc.1 h)

theorem replayVotes_inv (env : Env) (now : Nat) (l : List Vote) (acc : State × List Event)
    (h : InvLock acc.1) : InvLock (replayVotes env now l acc).1 := by
  induction l generalizing acc with
  | nil => exact h
  | cons v rest ih => exact ih _ (pv_inv env now v acc.1 h)

theorem restart_inv (env : Env) (now : Nat) (ns : List NodeID) (aID : Position) (a : State) :
    InvLock (restart env now ns aID a).1 := by
  unfold restart
  split
  · exact Or.inl le_rfl
  · exact replayVotes_inv env now _ _ (replayBlocks_inv env now _ _ (Or.inl le_rfl))

/-! ### Confirmation counting (claim C1) -/

theorem confirms_append (l₁ l₂ : List Event) :
    confirms (l₁ ++ l₂) = confirms l₁ + confirms l₂ := by
  simp [confirms, List.filter_append]

theorem ffCheck_out (v : Vote) (a : State) :
    confirms (ffCheck v a).evs = 0 ∧ (ffCheck v a).st.hasOutput = a.hasOutput := by
  simp only [ffCheck, cond3]
  repeat' split
  all_goals exact ⟨rfl, rfl⟩

theorem pvc_out (v : Vote) (a : State) :
    confirms (processVoteCore v a).evs + outPot (processVoteCore v a).st ≤ outPot a := by
  simp only [processVoteCore]
  split
  · next hg =>
      split
      · split
        · next =>
            have hfo : a.hasOutput = false := by
              have hf := (recordVote_fields v a).2.2.2.2.2.2.2.1
              rw [← hf]
              exact hg.1
            simp [outPot, confirms, isConfirm, hfo]
        · have h := ffCheck_out v (recordVote v a)
          simp only [outPot, h.1, h.2, (recordVote_fields v a).2.2.2.2.2.2.2.1]
          omega
      · have h := ffCheck_out v (recordVote v a)
        simp only [outPot, h.1, h.2, (recordVote_fields v a).2.2.2.2.2.2.2.1]
        omega
  · split
    · next hg =>
        simp only [outPot, (recordVote_fields v a).2.2.2.2.2.2.2.1]
        simp only [confirms, List.filter_nil, List.length_nil]
        omega
    · have h := ffCheck_out v (recordVote v a)
      simp only [outPot, h.1, h.2, (recordVote_fields v a).2.2.2.2.2.2.2.1]
      omega

theorem pv_out (env : Env) (now : Nat) (v : Vote) (a : State) :
    confirms (processVote env now v a).evs + outPot (processVote env now v a).st ≤ outPot a := by
  simp only [processVote]
  repeat' split
  all_goals first
    | exact pvc_out v a
    | simp [confirms, outPot]

theorem pb_out (env : Env) (now : Nat) (b : Block) (a : State) :
    confirms (processBlock env now b a).evs + outPot (processBlock env now b a).st ≤ outPot a := by
  have hp := pb_pres env now b a
  rw [hp.2.2.2.2.2.2.2.2.2.2]
  simp only [confirms, List.filter_nil, List.length_nil, outPot, hp.2.2.2.2.2.1]
  omega

theorem doneStep_out (a : State) : outPot (doneStep a).1 ≤ outPot a := by
  unfold doneStep
  repeat' split
  all_goals simp [outPot]

theorem stepAct_out (env : Env) (a : State) (act : Action) :
    confirms (stepAct env a act).2 + outPot (stepAct env a act).1 ≤ outPot a := by
  cases act with
  | vote now v => exact pv_out env now v a
  | block now b => exact pb_out env now b a
  | tick =>
      simp only [stepAct, confirms, List.filter_nil, List.length_nil]
      have := doneStep_out a
      omega

theorem run_out (env : Env) (a : State) (acts : List Action) :
    confirms (run env a acts).2 + outPot (run env a acts).1 ≤ outPot a := by
  induction acts generalizing a with
  | nil => simp [run, confirms]
  | cons act rest ih =>
      simp only [run, confirms_append]
      have h1 := stepAct_out env a act
      have h2 := ih (stepAct env a act).1
      omega

/-! ### Reduction lemmas for processVote under explicit check outcomes -/

theorem pv_checks (env : Env) (now : Nat) (v : Vote) (a : State)
    (hMem : v.proposerID ∈ a.notarySet) (hSig : env.sigOk v = true)
    (hPos : v.position = a.aID) (hFork : checkForkVote a v = none) :
    processVote env now v a = processVoteCore v a := by
  simp [processVote, hMem, hSig, hPos, hFork]

theorem recordVote_hasOutput (v : Vote) (a : State) :
    (recordVote v a).hasOutput = a.hasOutput := rfl

theorem pvc_confirm_eq (v : Vote) (a : State) (h : Hash) (hOut : a.hasOutput = false)
    (hCom : v.voteType = .com)
    (hWin : countVoteNoLock (recordVote v a) v.period .com = some h)
    (hSkip : h ≠ skipBlockHash) :
    processVoteCore v a = ⟨{ recordVote v a with hasOutput := true }, none,
      [.confirmBlock h (comVotes (recordVote v a) v.period)]⟩ := by
  have h1 : (recordVote v a).hasOutput = false := hOut
  simp [processVoteCore, h1, hCom, hWin, hSkip]

theorem pvc_to_ff (v : Vote) (a : State) (hOut : a.hasOutput = false)
    (hPre : v.voteType = .preCom) :
    processVoteCore v a = ffCheck v (recordVote v a) := by
  have h1 : (recordVote v a).hasOutput = false := hOut
  simp [processVoteCore, h1, hPre]

theorem pvc_com_nowin (v : Vote) (a : State) (hOut : a.hasOutput = false)
    (hCom : v.voteType = .com)
    (hWin : countVoteNoLock (recordVote v a) v.period .com = none ∨
      countVoteNoLock (recordVote v a) v.period .com = some skipBlockHash) :
    processVoteCore v a = ffCheck v (recordVote v a) := by
  have h1 : (recordVote v a).hasOutput = false := hOut
  rcases hWin with hw | hw
  · simp [processVoteCore, h1, hCom, hw]
  · simp [processVoteCore, h1, hCom, hw]

theorem ffCheck_com (v : Vote) (a : State) (hCom : v.voteType = .com) :
    ffCheck v a = cond3 v a := by
  simp [ffCheck, hCom]

theorem pvc_done (v : Vote) (a : State) (hOut : a.hasOutput = true) :
    processVoteCore v a = ⟨recordVote v a, none, []⟩ := by
  have h1 : (recordVote v a).hasOutput = true := hOut
  simp [processVoteCore, h1]

theorem pv_out_true (env : Env) (now : Nat) (v : Vote) (a : State)
    (hOut : a.hasOutput = true) :
    (processVote env now v a).evs = [] ∧ (processVote env now v a).st.hasOutput = true := by
  simp only [processVote]
  repeat' split
  all_goals first
    | exact ⟨rfl, hOut⟩
    | (rw [pvc_done v a hOut]; exact ⟨rfl, hOut⟩)

theorem pv_err_none (env : Env) (now : Nat) (v : Vote) (a : State)
    (hMem : v.proposerID ∈ a.notarySet) (hSig : env.sigOk v = true)
    (hFork : checkForkVote a v = none) :
    (processVote env now v a).err = none := by
  simp only [processVote, hMem, hSig]
  repeat' split
  all_goals first | rfl | exact (pvc_pres v a).1 | simp_all

theorem emptyBucket_get (t : VoteType) : emptyBucket.get t = [] := by
  cases t <;> rfl

theorem checkForkVote_fresh (a : State) (v : Vote) (hv : a.votes = [(1, emptyBucket)]) :
    checkForkVote a v = none := by
  unfold checkForkVote
  rw [hv]
  by_cases h : 1 = v.period
  · simp [amFind, h, emptyBucket_get]
  · simp [amFind, h]

/-! ### Preservation lemmas for the restart replay loops -/

theorem replayBlocks_pres (env : Env) (now : Nat) (l : List Block) (acc : State × List Event) :
    (replayBlocks env now l acc).1.votes = acc.1.votes ∧
    (replayBlocks env now l acc).1.aID = acc.1.aID ∧
    (replayBlocks env now l acc).1.notarySet = acc.1.notarySet ∧
    (replayBlocks env now l acc).1.requiredVote = acc.1.requiredVote ∧
    (replayBlocks env now l acc).1.pendingVote = acc.1.pendingVote := by
  induction l generalizing acc with
  | nil => exact ⟨rfl, rfl, rfl, rfl, rfl⟩
  | cons b rest ih =>
      have hp := pb_pres env now b acc.1
      have hi := ih ((processBlock env now b acc.1).st, acc.2 ++ (processBlock env now b acc.1).evs)
      exact ⟨hi.1.trans hp.1, hi.2.1.trans hp.2.2.2.1, hi.2.2.1.trans hp.2.2.2.2.1,
        hi.2.2.2.1.trans hp.2.2.1, hi.2.2.2.2.trans hp.2.2.2.2.2.2.2.2.2.1⟩

theorem replayVotes_pres (env : Env) (now : Nat) (l : List Vote) (acc : State × List Event) :
    (replayVotes env now l acc).1.aID = acc.1.aID ∧
    (replayVotes env now l acc).1.notarySet = acc.1.notarySet ∧
    (replayVotes env now l acc).1.requiredVote = acc.1.requiredVote := by
  induction l generalizing acc with
  | nil => exact ⟨rfl, rfl, rfl⟩
  | cons v rest ih =>
      have hp := pv_pres env now v acc.1
      have hi := ih ((processVote env now v acc.1).st, acc.2 ++ (processVote env now v acc.1).evs)
      exact ⟨hi.1.trans hp.2.2.2.1, hi.2.1.trans hp.2.2.2.2.1, hi.2.2.trans hp.2.1⟩

theorem replayVotes_pendingVote (env : Env) (now : Nat) (l : List Vote)
    (acc : State × List Event) (h : ∀ v ∈ l, v.position = acc.1.aID) :
    (replayVotes env now l acc).1.pendingVote = acc.1.pendingVote := by
  induction l generalizing acc with
  | nil => rfl
  | cons v rest ih =>
      have hp := pv_pres env now v acc.1
      have hv := h v (List.mem_cons_self v rest)
      have hi := ih ((processVote env now v acc.1).st, acc.2 ++ (processVote env now v acc.1).evs)
        (fun w hw => (h w (List.mem_cons_of_mem v hw)).trans hp.2.2.2.1.symm)
      exact hi.trans (pv_pendingVote_of_pos env now v acc.1 hv)

/-! ### Membership in the PullBlocks hash collection -/

theorem mem_keepHashes (a : State) (l : AssocMap NodeID Vote) (x : Hash) :
    (x ∈ (l.filter (fun e =>
        !(e.2.blockHash == nullBlockHash) && !(e.2.blockHash == skipBlockHash) &&
          (amFind a.candidateBlock e.2.blockHash).isNone)).map (fun e => e.2.blockHash)) ↔
      ((∃ e ∈ l, e.2.blockHash = x) ∧ x ≠ nullBlockHash ∧ x ≠ skipBlockHash ∧
        amFind a.candidateBlock x = none) := by
  simp only [List.mem_map, List.mem_filter, Bool.and_eq_true, Bool.not_eq_true',
    beq_eq_false_iff_ne, ne_eq, Option.isNone_iff_eq_none]
  constructor
  · rintro ⟨e, ⟨hel, ⟨h1, h2⟩, h3⟩, rfl⟩
    exact ⟨⟨e, hel, rfl⟩, h1, h2, h3⟩
  · rintro ⟨⟨e, hel, rfl⟩, h1, h2, h3⟩
    exact ⟨e, ⟨hel, ⟨h1, h2⟩, h3⟩, rfl⟩

theorem mem_pullHashes (a : State) (p : Nat) (x : Hash) :
    x ∈ pullHashes a p ↔
      ((∃ t : VoteType, ∃ e ∈ votesOf a p t, e.2.blockHash = x) ∧
        x ≠ nullBlockHash ∧ x ≠ skipBlockHash ∧ amFind a.candidateBlock x = none) := by
  unfold pullHashes
  simp only [List.mem_append, mem_keepHashes]
  constructor
  · rintro ((⟨⟨e, he, hx⟩, hk⟩ | ⟨⟨e, he, hx⟩, hk⟩) | ⟨⟨e, he, hx⟩, hk⟩)
    · exact ⟨⟨.ini, e, he, hx⟩, hk⟩
    · exact ⟨⟨.preCom, e, he, hx⟩, hk⟩
    · exact ⟨⟨.com, e, he, hx⟩, hk⟩
  · rintro ⟨⟨t, e, he, hx⟩, hk⟩
    cases t
    · exact Or.inl (Or.inl ⟨⟨e, he, hx⟩, hk⟩)
    · exact Or.inl (Or.inr ⟨⟨e, he, hx⟩, hk⟩)
    · exact Or.inr ⟨⟨e, he, hx⟩, hk⟩

/-- Every entry selected for replay by the sweep targets exactly the new
position. -/
theorem sweepReplay_pos {α : Type} (aID : Position) (pos : α → Position)
    (l : List (α × Nat)) : ∀ x ∈ sweepReplay aID pos l, pos x = aID := by
  intro x hx
  obtain ⟨e, hel, hfe⟩ := List.mem_filterMap.mp hx
  by_cases h1 : aID.Newer (pos e.1) = true
  · rw [if_pos h1] at hfe
    exact absurd hfe (by simp)
  · rw [if_neg h1] at hfe
    by_cases h2 : pos e.1 = aID
    · rw [if_pos h2] at hfe
      rw [← Option.some.inj hfe]
      exact h2
    · rw [if_neg h2] at hfe
      exact absurd hfe (by simp)

/-- Looking up the freshly recorded vote's period in the tally yields the
updated bucket. -/
theorem recordVote_votes_find (v : Vote) (a : State) :
    amFind (recordVote v a).votes v.period =
      some (((amFind a.votes v.period).getD emptyBucket).set v.voteType
        (amInsert (((amFind a.votes v.period).getD emptyBucket).get v.voteType)
          v.proposerID v)) :=
  amFind_amInsert_self _ _ _

/-- A recorded vote is retrievable under its (period, type, proposer) key. -/
theorem recordVote_recorded (v : Vote) (a : State) :
    amFind (votesOf (recordVote v a) v.period v.voteType) v.proposerID = some v := by
  unfold votesOf
  rw [recordVote_votes_find]
  simp only [Option.getD_some, VoteBucket.get_set]
  exact amFind_amInsert_self _ _ _

/-! ### Claim theorems -/

/-- C2: fork and fork-vote detection without mutation. A second block from a
proposer with a recorded block of a different hash at the current position
makes `processBlock` return a Fork error and change nothing; a vote whose
(period, type, proposer) key is recorded with a different block hash makes
`processVote` (past the sanity checks) return a ForkVote error and change
nothing — the first block/vote remains recorded. -/
theorem claim_C2_fork_detection (env : Env) (now : Nat) (a : State) (b old : Block)
    (v w : Vote) (bkt : VoteBucket) :
    (b.position = a.aID → amFind a.blocks b.proposerID = some old → old.hash ≠ b.hash →
      processBlock env now b a = ⟨a, some (.fork b.proposerID old.hash b.hash), []⟩) ∧
    (v.proposerID ∈ a.notarySet → env.sigOk v = true → v.position = a.aID →
      amFind a.votes v.period = some bkt →
      amFind (bkt.get v.voteType) v.proposerID = some w →
      v.blockHash ≠ w.blockHash →
      processVote env now v a = ⟨a, some (.forkVote v.proposerID w v), []⟩) := by
  constructor
  · intro hq hob hne
    simp [processBlock, hq, hob, hne]
  · intro hMem hSig hPos hb hw hne
    have hfk : checkForkVote a v = some (.forkVote v.proposerID w v) := by
      simp [checkForkVote, hb, hw, hne]
    simp [processVote, hMem, hSig, hPos, hfk]

/-- C2 witness: with block (proposer 1, hash 5) recorded, the conflicting
block (proposer 1, hash 6) returns a Fork error and leaves the state
untouched; with Commit vote (proposer 1, period 1, hash 7) recorded, the
conflicting Commit vote for hash 9 returns a ForkVote error. -/
theorem claim_C2_fork_detection_witness :
    processBlock envW 0 blkB blkState = ⟨blkState, some (.fork 1 5 6), []⟩ ∧
    processVote envW 0 (mkVote 1 1 .com 9) almostState =
      ⟨almostState, some (.forkVote 1 (mkVote 1 1 .com 7) (mkVote 1 1 .com 9)), []⟩ :=
  ⟨(claim_C2_fork_detection envW 0 blkState blkB blkA (mkVote 1 1 .com 9)
      (mkVote 1 1 .com 7) emptyBucket).1 (by decide) (by decide) (by decide),
   (claim_C2_fork_detection envW 0 almostState blkB blkA (mkVote 1 1 .com 9)
      (mkVote 1 1 .com 7) ((amFind almostState.votes 1).getD emptyBucket)).2
        (by decide) (by decide) (by decide) (by decide) (by decide) (by decide)⟩

/-- C9: idempotence of resubmission. Resubmitting a vote identical to the one
recorded under its (period, type, proposer) key succeeds and leaves the vote
tally and block map unchanged (hence without duplicate entries); resubmitting
an identical recorded block is a complete no-op. -/
theorem claim_C9_idempotence (env : Env) (now : Nat) (a : State) (v : Vote) (b : Block)
    (bkt : VoteBucket) :
    (v.proposerID ∈ a.notarySet → env.sigOk v = true → v.position = a.aID →
      amFind a.votes v.period = some bkt →
      amFind (bkt.get v.voteType) v.proposerID = some v →
      (processVote env now v a).err = none ∧
      (processVote env now v a).st.votes = a.votes ∧
      (processVote env now v a).st.blocks = a.blocks) ∧
    (b.position = a.aID → amFind a.blocks b.proposerID = some b →
      processBlock env now b a = ⟨a, none, []⟩) := by
  constructor
  · intro hMem hSig hPos hb hv
    have hFork : checkForkVote a v = none := by
      simp [checkForkVote, hb, hv]
    have hrec : recordVote v a = a := by
      unfold recordVote
      simp only [hb, Option.getD_some, amInsert_self _ _ _ hv, VoteBucket.set_get,
        amInsert_self _ _ _ hb]
    rw [pv_checks env now v a hMem hSig hPos hFork]
    refine ⟨(pvc_pres v a).1, ?_, (pvc_pres v a).2.2.2.2.1⟩
    rw [(pvc_pres v a).2.1, hrec]
  · intro hq hob
    simp [processBlock, hq, hob]

/-- C9 witness: resubmitting the recorded Commit vote (proposer 1, period 1,
hash 7) and the recorded block (proposer 1, hash 5) is accepted without
changing the tally or block map. -/
theorem claim_C9_idempotence_witness :
    ((processVote envW 0 (mkVote 1 1 .com 7) almostState).err = none ∧
      (processVote envW 0 (mkVote 1 1 .com 7) almostState).st.votes = almostState.votes ∧
      (processVote envW 0 (mkVote 1 1 .com 7) almostState).st.blocks = almostState.blocks) ∧
    processBlock envW 0 blkA blkState = ⟨blkState, none, []⟩ :=
  ⟨(claim_C9_idempotence envW 0 almostState (mkVote 1 1 .com 7) blkA
      ((amFind almostState.votes 1).getD emptyBucket)).1
        (by decide) (by decide) (by decide) (by decide) (by decide),
   (claim_C9_idempotence envW 0 blkState (mkVote 1 1 .com 7) blkA emptyBucket).2
     (by decide) (by decide)⟩

/-- C10: a stopped instance (stop installs an empty notary set and the
sentinel position) rejects every vote with NotInNotarySet before the position
check, so nothing is buffered or recorded — while `processBlock` still
buffers blocks for other positions on a stopped instance. -/
theorem claim_C10_stopped_rejects_votes (env : Env) (now : Nat) (a s : State) (v : Vote)
    (b : Block) :
    ((stop env now a).1.notarySet = [] ∧ isStop (stop env now a).1.aID = true) ∧
    (s.notarySet = [] → processVote env now v s = ⟨s, some .notInNotarySet, []⟩) ∧
    (isStop s.aID = true → b.position ≠ s.aID →
      processBlock env now b s =
        ⟨{ s with pendingBlock := s.pendingBlock ++ [(b, now)] }, none, []⟩) := by
  refine ⟨⟨rfl, ?_⟩, ?_, ?_⟩
  · have h1 : (stop env now a).1.aID = (⟨stopChainID, 0⟩ : Position) := rfl
    rw [h1]
    rfl
  · intro h
    simp [processVote, h]
  · intro h1 h2
    simp [processBlock, h1, h2]

/-- C10 witness: the freshly stopped instance returns NotInNotarySet for a
vote (state unchanged) yet buffers a block for the active position. -/
theorem claim_C10_stopped_rejects_votes_witness :
    processVote envW 0 (mkVote 1 1 .com 7) (newAgreement envW) =
      ⟨newAgreement envW, some .notInNotarySet, []⟩ ∧
    processBlock envW 0 blkA (newAgreement envW) =
      ⟨{ newAgreement envW with
          pendingBlock := (newAgreement envW).pendingBlock ++ [(blkA, 0)] }, none, []⟩ :=
  ⟨(claim_C10_stopped_rejects_votes envW 0 zeroState (newAgreement envW)
      (mkVote 1 1 .com 7) blkA).2.1 (by decide),
   (claim_C10_stopped_rejects_votes envW 0 zeroState (newAgreement envW)
      (mkVote 1 1 .com 7) blkA).2.2 (by decide) (by decide)⟩

/-- C5: fast-forward condition 2. A PreCommit vote for a period strictly
beyond the current one whose period holds a PreCommit quorum on a non-skip
winning hash makes `processVote` set the lock value/round to that hash and
period and post a fast-forward target of exactly the vote's period. -/
theorem claim_C5_fast_forward_condition_two (env : Env) (now : Nat) (v : Vote) (a : State)
    (h : Hash) :
    a.hasOutput = false → v.proposerID ∈ a.notarySet → env.sigOk v = true →
    v.position = a.aID → checkForkVote a v = none → v.voteType = .preCom →
    countVoteNoLock (recordVote v a) v.period .preCom = some h → h ≠ skipBlockHash →
    a.period < v.period →
    processVote env now v a = ⟨{ recordVote v a with
      lockValue := h
      lockRound := v.period
      fastForward := a.fastForward ++ [v.period] }, none, []⟩ := by
  intro hOut hMem hSig hPos hFork hPre hWin hSkip hP
  rw [pv_checks env now v a hMem hSig hPos hFork, pvc_to_ff v a hOut hPre]
  unfold ffCheck
  rw [if_pos hPre, hWin]
  simp only
  rw [if_pos hSkip, if_neg (fun hc => absurd hc.1 (Nat.not_le_of_lt hP)),
    if_pos (show (recordVote v a).period < v.period from hP)]
  rfl

/-- C1 (amended): ConfirmBlock fires at most once per round — over any action
sequence the number of ConfirmBlock events is bounded by the finalization
potential; a Commit vote completing a quorum on a non-skip hash fires it
exactly once with that hash and the full Commit-vote set of the period; and
after finalization no call fires it again, with calls that pass the sanity
and fork checks returning success. (The claim's unconditional "returns
success" is amended: a vote failing those checks still returns its error.) -/
theorem claim_C1_at_most_once_finalization (env : Env) (a : State) (acts : List Action)
    (now : Nat) (v : Vote) (h : Hash) :
    (confirms (run env a acts).2 ≤ outPot a) ∧
    (a.hasOutput = false → v.proposerID ∈ a.notarySet → env.sigOk v = true →
      v.position = a.aID → checkForkVote a v = none → v.voteType = .com →
      countVoteNoLock (recordVote v a) v.period .com = some h → h ≠ skipBlockHash →
      processVote env now v a = ⟨{ recordVote v a with hasOutput := true }, none,
        [.confirmBlock h (comVotes (recordVote v a) v.period)]⟩) ∧
    (a.hasOutput = true →
      (processVote env now v a).evs = [] ∧ (processVote env now v a).st.hasOutput = true ∧
      (v.proposerID ∈ a.notarySet → env.sigOk v = true → checkForkVote a v = none →
        (processVote env now v a).err = none)) := by
  refine ⟨?_, ?_, ?_⟩
  · exact le_trans (Nat.le_add_right _ _) (run_out env a acts)
  · intro hOut hMem hSig hPos hFork hCom hWin hSkip
    rw [pv_checks env now v a hMem hSig hPos hFork]
    exact pvc_confirm_eq v a h hOut hCom hWin hSkip
  · intro hOut
    exact ⟨(pv_out_true env now v a hOut).1, (pv_out_true env now v a hOut).2,
      fun hMem hSig hFork => pv_err_none env now v a hMem hSig hFork⟩

/-- C1 witness: the finalizing trace fires at most one ConfirmBlock; the
third Commit vote for hash 7 confirms with hash 7 and the period's
Commit-vote set; after finalization a fresh Commit vote is a success
no-op without ConfirmBlock. -/
theorem claim_C1_at_most_once_finalization_witness :
    confirms (run envW startW finTrace).2 ≤ outPot startW ∧
    processVote envW 0 almostVote almostState =
      ⟨{ recordVote almostVote almostState with hasOutput := true }, none,
        [.confirmBlock 7 (comVotes (recordVote almostVote almostState) almostVote.period)]⟩ ∧
    ((processVote envW 0 (mkVote 4 1 .com 9) finState).evs = [] ∧
      (processVote envW 0 (mkVote 4 1 .com 9) finState).st.hasOutput = true ∧
      (processVote envW 0 (mkVote 4 1 .com 9) finState).err = none) :=
  ⟨(claim_C1_at_most_once_finalization envW startW finTrace 0 almostVote 7).1,
   (claim_C1_at_most_once_finalization envW almostState finTrace 0 almostVote 7).2.1
     (by decide) (by decide) (by decide) (by decide) (by decide) (by decide)
     (by decide) (by decide),
   (fun t => ⟨t.1, t.2.1, t.2.2 (by decide) (by decide) (by decide)⟩)
     ((claim_C1_at_most_once_finalization envW finState finTrace 0
       (mkVote 4 1 .com 9) 7).2.2 (by decide))⟩

/-- C1 counterexample to the claim as stated: after finalization (hasOutput
set by the Commit quorum on hash 7), a Commit fork vote from proposer 1 for
hash 8 does NOT return success — `processVote` returns a ForkVote error. -/
theorem claim_C1_at_most_once_finalization_counterexample :
    finState.hasOutput = true ∧
    (processVote envW 0 finForkVote finState).err =
      some (.forkVote 1 (mkVote 1 1 .com 7) finForkVote) := by decide

/-- C3 (amended): in every state reachable from a restart by processVote,
processBlock and done calls, either `lockRound ≤ period` or `lockRound` is a
pending fast-forward target (so `lockRound ≤ period` is restored whenever
the fast-forward mailbox is drained/empty). -/
theorem claim_C3_lock_round_invariant (env : Env) (now : Nat) (ns : List NodeID)
    (aID : Position) (a : State) (acts : List Action) :
    (run env (restart env now ns aID a).1 acts).1.lockRound ≤
        (run env (restart env now ns aID a).1 acts).1.period ∨
      (run env (restart env now ns aID a).1 acts).1.lockRound ∈
        (run env (restart env now ns aID a).1 acts).1.fastForward :=
  run_inv env _ acts (restart_inv env now ns aID a)

/-- C3 counterexample to the claim as stated: after a restart and three
period-2 PreCommit votes for hash 7 (fast-forward condition 2), the state has
lockRound 2 but period still 1, violating `lockRound ≤ period`. -/
theorem claim_C3_lock_round_invariant_counterexample :
    lockState.lockRound = 2 ∧ lockState.period = 1 ∧
    ¬ lockState.lockRound ≤ lockState.period := by decide

/-- C4 (amended): fast-forward condition 1 triggers when the current period ≥
the vote's period, the vote's period > lockRound, and the VOTE'S OWN block
hash (not the winning hash, as the claim stated) differs from the current
lock value; it then sets lockValue to the winning hash, lockRound to the
vote's period, and posts currentPeriod + 1. -/
theorem claim_C4_fast_forward_condition_one (env : Env) (now : Nat) (v : Vote) (a : State)
    (h : Hash) :
    a.hasOutput = false → v.proposerID ∈ a.notarySet → env.sigOk v = true →
    v.position = a.aID → checkForkVote a v = none → v.voteType = .preCom →
    countVoteNoLock (recordVote v a) v.period .preCom = some h → h ≠ skipBlockHash →
    v.period ≤ a.period → a.lockRound < v.period → v.blockHash ≠ a.lockValue →
    processVote env now v a = ⟨{ recordVote v a with
      lockValue := h
      lockRound := v.period
      fastForward := a.fastForward ++ [a.period + 1] }, none, []⟩ := by
  intro hOut hMem hSig hPos hFork hPre hWin hSkip hP1 hP2 hNe
  rw [pv_checks env now v a hMem hSig hPos hFork, pvc_to_ff v a hOut hPre]
  unfold ffCheck
  rw [if_pos hPre, hWin]
  simp only
  rw [if_pos hSkip, if_pos (show v.period ≤ (recordVote v a).period ∧
    (recordVote v a).lockRound < v.period ∧ v.blockHash ≠ (recordVote v a).lockValue from
    ⟨hP1, hP2, hNe⟩)]
  rfl

/-- C4 witness (amended form): at period 3 with lock round 1 and null lock
value, the third period-2 PreCommit vote for hash 8 (own hash 8 ≠ lock
value) fires condition 1: lock becomes (8, 2) and target period 4 is
posted. -/
theorem claim_C4_fast_forward_condition_one_witness :
    processVote envW 0 cond1Vote cond1State = ⟨{ recordVote cond1Vote cond1State with
      lockValue := 8
      lockRound := cond1Vote.period
      fastForward := cond1State.fastForward ++ [cond1State.period + 1] }, none, []⟩ :=
  claim_C4_fast_forward_condition_one envW 0 cond1Vote cond1State 8 (by decide) (by decide)
    (by decide) (by decide) (by decide) (by decide) (by decide) (by decide) (by decide)
    (by decide) (by decide)

/-- C4 counterexample to the claim as stated: in the reachable state
`ffState` (period 4, lock value 8, lock round 3), period 4 holds a PreCommit
quorum whose winning hash 7 differs from the lock value, the current period ≥
4 > lockRound, yet the PreCommit vote `ffVote` (own hash 8 = lock value)
triggers no update and no post: the code compares the vote's own hash, not
the winning hash. -/
theorem claim_C4_fast_forward_condition_one_counterexample :
    ffVote.voteType = .preCom ∧
    ffVote.proposerID ∈ ffState.notarySet ∧ envW.sigOk ffVote = true ∧
    ffVote.position = ffState.aID ∧ checkForkVote ffState ffVote = none ∧
    ffState.hasOutput = false ∧
    countVoteNoLock ffState ffVote.period .preCom = some 7 ∧
    countVoteNoLock (recordVote ffVote ffState) ffVote.period .preCom = some 7 ∧
    (7 : Hash) ≠ skipBlockHash ∧
    ffVote.period ≤ ffState.period ∧ ffState.lockRound < ffVote.period ∧
    (7 : Hash) ≠ ffState.lockValue ∧
    (processVote envW 0 ffVote ffState).st.lockValue = ffState.lockValue ∧
    (processVote envW 0 ffVote ffState).st.lockRound = ffState.lockRound ∧
    (processVote envW 0 ffVote ffState).st.fastForward = ffState.fastForward ∧
    ffState.lockValue ≠ 7 ∧ ffState.lockRound ≠ ffVote.period := by decide

/-- C6 (amended): a Commit vote (passing the sanity, position and fork
checks, with finalization not yet reached and no non-skip Commit winner for
its period) whose period ≥ the current period and whose Commit bucket has
reached quorum size makes `processVote` hand PullBlocks the collection of
non-null, non-skip hashes referenced by Init/PreCommit/Commit votes of the
period and absent from the candidate pool — one entry PER VOTE (so possibly
with repetitions, not the distinct collection the claim stated) — and post
fast-forward target vote.period + 1. -/
theorem claim_C6_commit_quorum_pull (env : Env) (now : Nat) (v : Vote) (a : State) :
    a.hasOutput = false → v.proposerID ∈ a.notarySet → env.sigOk v = true →
    v.position = a.aID → checkForkVote a v = none → v.voteType = .com →
    (countVoteNoLock (recordVote v a) v.period .com = none ∨
      countVoteNoLock (recordVote v a) v.period .com = some skipBlockHash) →
    a.period ≤ v.period →
    a.requiredVote ≤ (comVotes (recordVote v a) v.period).length →
    processVote env now v a = ⟨{ recordVote v a with
        fastForward := a.fastForward ++ [v.period + 1] }, none,
      [.pullBlocks (pullHashes (recordVote v a) v.period)]⟩ ∧
    (∀ x : Hash, x ∈ pullHashes (recordVote v a) v.period ↔
      ((∃ t : VoteType, ∃ e ∈ votesOf (recordVote v a) v.period t, e.2.blockHash = x) ∧
        x ≠ nullBlockHash ∧ x ≠ skipBlockHash ∧
        amFind (recordVote v a).candidateBlock x = none)) := by
  intro hOut hMem hSig hPos hFork hCom hNoWin hP hQ
  refine ⟨?_, fun x => mem_pullHashes (recordVote v a) v.period x⟩
  rw [pv_checks env now v a hMem hSig hPos hFork, pvc_com_nowin v a hOut hCom hNoWin,
    ffCheck_com v _ hCom]
  unfold cond3
  rw [if_pos (show v.voteType = .com ∧ (recordVote v a).period ≤ v.period ∧
    (recordVote v a).requiredVote ≤ (comVotes (recordVote v a) v.period).length from
    ⟨hCom, hP, hQ⟩)]
  rfl

/-- C6 witness (amended form): the third Commit vote (hash 6, after two
Commit votes for hash 5) reaches quorum size 3 with no winner; PullBlocks is
called and hash 5 is among the pulled hashes. -/
theorem claim_C6_commit_quorum_pull_witness :
    processVote envW 0 pullVote pullState = ⟨{ recordVote pullVote pullState with
        fastForward := pullState.fastForward ++ [pullVote.period + 1] }, none,
      [.pullBlocks (pullHashes (recordVote pullVote pullState) pullVote.period)]⟩ ∧
    (5 : Hash) ∈ pullHashes (recordVote pullVote pullState) pullVote.period :=
  ⟨(claim_C6_commit_quorum_pull envW 0 pullVote pullState (by decide) (by decide)
      (by decide) (by decide) (by decide) (by decide) (Or.inl (by decide)) (by decide)
      (by decide)).1,
   by decide⟩

/-- C6 counterexample to the claim as stated: with Commit votes 5, 5, 6 the
collection handed to PullBlocks is [5, 5, 6] — hash 5 appears once per vote,
so the collection is NOT the distinct-hash collection the claim describes. -/
theorem claim_C6_commit_quorum_pull_counterexample :
    (processVote envW 0 pullVote pullState).evs = [.pullBlocks [5, 5, 6]] ∧
    ¬ ([5, 5, 6] : List Hash).Nodup := by decide

/-- C5 witness: with current period 1 and lock round 1, the third PreCommit
vote of period 3 for hash 7 completes the quorum, sets lock value 7 and lock
round 3, and posts fast-forward target exactly 3. -/
theorem claim_C5_fast_forward_condition_two_witness :
    c5State.period = 1 ∧ c5State.lockRound = 1 ∧
    processVote envW 0 c5Vote c5State = ⟨{ recordVote c5Vote c5State with
      lockValue := 7
      lockRound := c5Vote.period
      fastForward := c5State.fastForward ++ [c5Vote.period] }, none, []⟩ :=
  ⟨by decide, by decide,
   claim_C5_fast_forward_condition_two envW 0 c5Vote c5State 7 (by decide) (by decide)
     (by decide) (by decide) (by decide) (by decide) (by decide) (by decide) (by decide)⟩

/-- C8: quorum size formula. Every restart sets
`requiredVote = ⌊n / 3⌋ * 2 + 1` for a notary set of size n, and
`countVote` reports a winner only when at least `requiredVote` entries
(distinct proposers, as bucket keys are unique) voted that hash. -/
theorem claim_C8_quorum_size (env : Env) (now : Nat) (ns : List NodeID) (aID : Position)
    (a : State) (p : Nat) (t : VoteType) (h : Hash) :
    ((restart env now ns aID a).1.requiredVote = ns.length / 3 * 2 + 1) ∧
    (countVoteNoLock a p t = some h →
      a.requiredVote ≤
          ((votesOf a p t).filter (fun e => e.2.blockHash == h)).length ∧
      ((amKeys (votesOf a p t)).Nodup →
        (amKeys ((votesOf a p t).filter (fun e => e.2.blockHash == h))).Nodup)) := by
  constructor
  · unfold restart
    split
    · rfl
    · rw [(replayVotes_pres env now _ _).2.2, (replayBlocks_pres env now _ _).2.2.2.1]
      rfl
  · intro hw
    unfold countVoteNoLock at hw
    rcases hfind : amFind a.votes p with _ | bkt
    · rw [hfind] at hw
      simp at hw
    · rw [hfind] at hw
      obtain ⟨e, hfe, hxe⟩ := Option.map_eq_some'.mp hw
      have hpred := List.find?_some hfe
      simp only [decide_eq_true_eq] at hpred
      have hvo : votesOf a p t = bkt.get t := by
        unfold votesOf
        rw [hfind]
        rfl
      subst hxe
      rw [hvo]
      refine ⟨hpred, fun hnd => ?_⟩
      exact hnd.sublist ((List.filter_sublist _).map Prod.fst)

/-- C8 witness: notary sets of sizes 4, 7, 10 give quorum 3, 5, 7; and the
period-2 PreCommit winner 7 in `lockState` is backed by at least quorum-many
entries. -/
theorem claim_C8_quorum_size_witness :
    (restart envW 0 [1, 2, 3, 4] posW zeroState).1.requiredVote = 3 ∧
    (restart envW 0 [1, 2, 3, 4, 5, 6, 7] posW zeroState).1.requiredVote = 5 ∧
    (restart envW 0 [1, 2, 3, 4, 5, 6, 7, 8, 9, 10] posW zeroState).1.requiredVote = 7 ∧
    lockState.requiredVote ≤
      ((votesOf lockState 2 .preCom).filter (fun e => e.2.blockHash == 7)).length :=
  ⟨((claim_C8_quorum_size envW 0 [1, 2, 3, 4] posW zeroState 2 .preCom 7).1).trans
      (by decide),
   ((claim_C8_quorum_size envW 0 [1, 2, 3, 4, 5, 6, 7] posW zeroState 2 .preCom 7).1).trans
      (by decide),
   ((claim_C8_quorum_size envW 0 [1, 2, 3, 4, 5, 6, 7, 8, 9, 10] posW zeroState 2
      .preCom 7).1).trans (by decide),
   ((claim_C8_quorum_size envW 0 [1, 2, 3, 4] posW lockState 2 .preCom 7).2
      (by decide)).1⟩

/-- C7: stale drop, future buffer, and restart sweep. A vote for a different
position always succeeds: it is silently dropped when the instance is active
and ahead of the vote, and buffered with its receipt time otherwise; at a
(non-stop) restart the retained pending votes are exactly the swept ones
(not older than the new position, not an exact match, received within 10
seconds), and a pending vote matching the new position is replayed verbatim:
if it is the sole replayed vote and passes the new sanity checks, the very
vote value ends up recorded in the fresh tally. -/
theorem claim_C7_stale_drop_future_buffer (env : Env) (now : Nat) (v : Vote) (a : State)
    (ns : List NodeID) (aID : Position) :
    (v.proposerID ∈ a.notarySet → env.sigOk v = true → v.position ≠ a.aID →
      isStop a.aID = false → a.aID.Newer v.position = true →
      processVote env now v a = ⟨a, none, []⟩) ∧
    (v.proposerID ∈ a.notarySet → env.sigOk v = true → v.position ≠ a.aID →
      ¬ (isStop a.aID = false ∧ a.aID.Newer v.position = true) →
      processVote env now v a =
        ⟨{ a with pendingVote := a.pendingVote ++ [(v, now)] }, none, []⟩) ∧
    (isStop aID = false →
      ((restart env now ns aID a).1.pendingVote =
          sweepKeep aID Vote.position now a.pendingVote) ∧
      (sweepReplay aID Vote.position a.pendingVote = [v] →
        v.proposerID ∈ ns → env.sigOk v = true →
        amFind (votesOf (restart env now ns aID a).1 v.period v.voteType) v.proposerID =
          some v)) := by
  refine ⟨?_, ?_, ?_⟩
  · intro hMem hSig hne hstop hnew
    simp [processVote, hMem, hSig, hne, hstop, hnew]
  · intro hMem hSig hne hnb
    simp only [processVote, hMem, hSig]
    rw [if_neg hne, if_neg hnb]
    simp
  · intro hNS
    have hre : restart env now ns aID a =
        replayVotes env now (sweepReplay aID Vote.position a.pendingVote)
          (replayBlocks env now (sweepReplay aID Block.position a.pendingBlock)
            (restartSwept now ns aID a, [])) := by
      unfold restart
      rw [hNS]
      rfl
    have hb := replayBlocks_pres env now (sweepReplay aID Block.position a.pendingBlock)
      (restartSwept now ns aID a, [])
    constructor
    · rw [hre]
      rw [replayVotes_pendingVote env now _ _ (fun w hw => by
        rw [hb.2.1]
        exact sweepReplay_pos aID Vote.position a.pendingVote w hw)]
      exact hb.2.2.2.2
    · intro hRep hMem hSig
      have hvpos : v.position = aID :=
        sweepReplay_pos aID Vote.position a.pendingVote v
          (by rw [hRep]; exact List.mem_singleton_self v)
      rw [hre, hRep]
      have hone : replayVotes env now [v]
          (replayBlocks env now (sweepReplay aID Block.position a.pendingBlock)
            (restartSwept now ns aID a, [])) =
          ((processVote env now v (replayBlocks env now
              (sweepReplay aID Block.position a.pendingBlock)
              (restartSwept now ns aID a, [])).1).st, _) := rfl
      rw [hone]
      set a3 := (replayBlocks env now (sweepReplay aID Block.position a.pendingBlock)
        (restartSwept now ns aID a, [])).1 with ha3
      have hMem3 : v.proposerID ∈ a3.notarySet := by
        rw [hb.2.2.1]
        exact hMem
      have hPos3 : v.position = a3.aID := by
        rw [hb.2.1]
        exact hvpos
      have hFork3 : checkForkVote a3 v = none :=
        checkForkVote_fresh a3 v (by rw [hb.1]; rfl)
      rw [pv_checks env now v a3 hMem3 hSig hPos3 hFork3]
      have hcv : votesOf (processVoteCore v a3).st v.period v.voteType =
          votesOf (recordVote v a3) v.period v.voteType := by
        unfold votesOf
        rw [(pvc_pres v a3).2.1]
      rw [hcv]
      exact recordVote_recorded v a3

/-- C7 witness: with the stale vote dropped without mutation, the future vote
(height 2) buffered at time 5, and a restart to height 2 at time 6 replaying
it: the buffered vote is recorded verbatim in the fresh tally and the
pending buffer retains exactly the swept entries. -/
theorem claim_C7_stale_drop_future_buffer_witness :
    processVote envW 0 oldVote startW = ⟨startW, none, []⟩ ∧
    processVote envW 5 futVote startW =
      ⟨{ startW with pendingVote := startW.pendingVote ++ [(futVote, 5)] }, none, []⟩ ∧
    (restart envW 6 [1, 2, 3, 4] ⟨0, 2⟩ bufState).1.pendingVote =
      sweepKeep ⟨0, 2⟩ Vote.position 6 bufState.pendingVote ∧
    amFind (votesOf (restart envW 6 [1, 2, 3, 4] ⟨0, 2⟩ bufState).1 futVote.period
      futVote.voteType) futVote.proposerID = some futVote :=
  ⟨(claim_C7_stale_drop_future_buffer envW 0 oldVote startW [1, 2, 3, 4] ⟨0, 2⟩).1
     (by decide) (by decide) (by decide) (by decide) (by decide),
   (claim_C7_stale_drop_future_buffer envW 5 futVote startW [1, 2, 3, 4] ⟨0, 2⟩).2.1
     (by decide) (by decide) (by decide) (by decide),
   ((claim_C7_stale_drop_future_buffer envW 6 futVote bufState [1, 2, 3, 4] ⟨0, 2⟩).2.2
     (by decide)).1,
   ((claim_C7_stale_drop_future_buffer envW 6 futVote bufState [1, 2, 3, 4] ⟨0, 2⟩).2.2
     (by decide)).2 (by decide) (by decide) (by decide)⟩

end Dexon
